import Mathlib

/-!
Verification development for the awsdoc-translation-qa crawl pipeline
(src/src/crawler.py, src/src/helper.py, src/doc-translator/s3_download.py,
src/doc-translator/s3_downloader.py), shallowly embedded in Lean 4.

Strings are modelled as Lean strings (lists of characters); Python string
primitives (replace, in, lower, strip, splitlines) are given executable
models below.  Network and HTML-library effects are passed in as explicit
oracle arguments, so every function of the source becomes a pure Lean
function of its inputs plus the oracles.
-/

/-- Python prefix test on character lists: isPre p s is true iff p is a
prefix of s.  Used to model substring search. -/
def isPre : List Char → List Char → Bool
  | [], _ => true
  | _ :: _, [] => false
  | p :: ps, c :: cs => p == c && isPre ps cs

/-- Python substring membership (the binary in operator on strings, e.g.
ng in url): true iff pat occurs contiguously in hay. -/
def containsSub : List Char → List Char → Bool
  | [], pat => isPre pat []
  | h :: t, pat => isPre pat (h :: t) || containsSub t pat

/-- Python substring membership lifted to strings: pat occurs in s. -/
def strContains (s pat : String) : Bool :=
  containsSub s.data pat.data

/-- Python str.lower restricted to the characters appearing in this
repository's data (ASCII): lower-case every character. -/
def lowerStr (s : String) : String :=
  String.mk (s.data.map Char.toLower)

/-- Fuel-bounded worker for the Python str.replace model; the fuel is only
a structural-recursion device and any fuel at least the length of the
input yields the same answer (replaceFuel_congr below). -/
def replaceFuel : Nat → List Char → List Char → List Char → List Char
  | 0, _, _, s => s
  | _ + 1, _, _, [] => []
  | f + 1, pat, rep, c :: cs =>
    if pat ≠ [] ∧ isPre pat (c :: cs) then
      rep ++ replaceFuel f pat rep (List.drop pat.length (c :: cs))
    else
      c :: replaceFuel f pat rep cs

/-- Python str.replace on character lists: replace every (leftmost,
non-overlapping, scanned left to right) occurrence of pat by rep.  All
patterns used in the repository are non-empty; for an empty pat this model
returns the input unchanged. -/
def replaceL (pat rep s : List Char) : List Char :=
  replaceFuel s.length pat rep s

/-- Python str.replace lifted to strings, argument order s.replace(pat, rep). -/
def pyReplace (s pat rep : String) : String :=
  String.mk (replaceL pat.data rep.data s.data)

/-- helper.url_to_path: url.replace("://", "___").replace(".", "__").replace("/", "_"). -/
def url_to_path (url : String) : String :=
  pyReplace (pyReplace (pyReplace url "://" "___") "." "__") "/" "_"

/-- helper.path_to_url: path.replace("___", "://").replace("__", ".").replace("_", "/"). -/
def path_to_url (path : String) : String :=
  pyReplace (pyReplace (pyReplace path "___" "://") "__" ".") "_" "/"

/-- helper.is_ok_url's ng_list: the deny-list of SDK/CLI/tooling markers,
verbatim from the source. -/
def ng_list : List String :=
  [ "aws-sdk-php",
    "AWSAndroidSDK",
    "AWSiOSSDK",
    "AWSJavaScriptSDK",
    "AWSJavaSDK",
    "awssdkrubyrecord",
    "encryption-sdk",
    "mobile-sdk",
    "pythonsdk",
    "powershell",
    "sdk-for-android",
    "sdk-for-cpp",
    "sdk-for-go",
    "sdk-for-ios",
    "sdk-for-java",
    "sdk-for-javascript",
    "sdk-for-net",
    "sdk-for-php",
    "sdk-for-php1",
    "sdk-for-ruby",
    "sdk-for-unity",
    "sdkfornet",
    "sdkfornet1",
    "xray-sdk-for-java",
    "code-samples" ]

/-- helper.is_ok_url: loop over ng_list, return False as soon as one marker
occurs in the url (Python in, hence case-sensitive), else True. -/
def is_ok_url (url : String) : Bool :=
  ng_list.all (fun ng => !(strContains url ng))

/-- List-level view of url_to_path: the three chained replaces on the
character list. -/
def encodeL (s : List Char) : List Char :=
  replaceL ['/'] ['_'] (replaceL ['.'] ['_', '_'] (replaceL [':', '/', '/'] ['_', '_', '_'] s))

/-- List-level view of path_to_url: the three chained inverse replaces. -/
def decodeL (s : List Char) : List Char :=
  replaceL ['_'] ['/'] (replaceL ['_', '_'] ['.'] (replaceL ['_', '_', '_'] [':', '/', '/'] s))

/-- Character lists whose head is not an underscore (vacuously true for the
empty list); used to delimit maximal underscore runs. -/
def headNotU : List Char → Bool
  | [] => true
  | c :: _ => c != '_'

/-- An HTTP response as observed inside crawler.fetch: the status code, the
two headers it reads (absent header modelled as none, since the subscript
access raises KeyError), and the decoded body text. -/
structure HttpResponse where
  status : Nat
  lastModifiedHeader : Option String
  etagHeader : Option String
  body : String
deriving DecidableEq

/-- The success-shaped doc_json dict built by crawler.fetch when both
statuses are 200 and every field expression evaluates without raising;
its message key is None. -/
structure SuccessDoc where
  crawled_at : String
  url : String
  status : Nat
  last_modified : String
  etag : String
  html : String
  url_ja : String
  status_ja : Nat
  last_modified_ja : String
  etag_ja : String
  html_ja : String
deriving DecidableEq

/-- The three dict shapes crawler.fetch can return: the initial empty dict
(doc_json = annotated at function entry and never reassigned on the
non-200 path), the success dict, and the except-handler dict in which
every data field is None and message holds the formatted traceback (the
handler also binds crawled_at, url and url_ja). -/
inductive DocJson where
  | empty
  | success (d : SuccessDoc)
  | failure (crawled_at url url_ja message : String)
deriving DecidableEq

/-- Dictionary subscript on a response's headers: raises KeyError (as an
error value) when the header is absent. -/
def headerGet (h : Option String) (name : String) : Except String String :=
  match h with
  | some v => Except.ok v
  | none => Except.error ("KeyError: " ++ name)

/-- Application of helper.to_isoformat, which is datetime.strptime followed
by isoformat: the function itself is modelled as an oracle toIso, a none
result standing for strptime raising ValueError on a malformed header. -/
def toIsoApp (toIso : String → Option String) (v : String) : Except String String :=
  match toIso v with
  | some r => Except.ok r
  | none => Except.error ("ValueError: time data " ++ v ++ " does not match the expected format")

/-- Evaluation of the success dict literal in crawler.fetch, in Python
evaluation order: primary Last-Modified access, its strptime, primary Etag
access, then the same three for the ja response.  The first raising
subexpression aborts the literal with that exception. -/
def buildSuccessDoc (toIso : String → Option String) (crawledAt url urlJa : String)
    (rp rj : HttpResponse) : Except String SuccessDoc :=
  match headerGet rp.lastModifiedHeader "Last-Modified" with
  | Except.error e => Except.error e
  | Except.ok lmRaw =>
    match toIsoApp toIso lmRaw with
    | Except.error e => Except.error e
    | Except.ok lm =>
      match headerGet rp.etagHeader "Etag" with
      | Except.error e => Except.error e
      | Except.ok et =>
        match headerGet rj.lastModifiedHeader "Last-Modified" with
        | Except.error e => Except.error e
        | Except.ok lmRawJa =>
          match toIsoApp toIso lmRawJa with
          | Except.error e => Except.error e
          | Except.ok lmJa =>
            match headerGet rj.etagHeader "Etag" with
            | Except.error e => Except.error e
            | Except.ok etJa =>
              Except.ok
                { crawled_at := crawledAt, url := url, status := rp.status,
                  last_modified := lm, etag := et, html := rp.body,
                  url_ja := urlJa, status_ja := rj.status,
                  last_modified_ja := lmJa, etag_ja := etJa, html_ja := rj.body }

/-- State of crawler.fetch at the start of the finally clause: doc is the
current value of the doc_json local and pending is an exception still
propagating at that point.  The finally clause executes return doc_json,
which discards any pending exception. -/
structure FetchState where
  doc : DocJson
  pending : Option String
deriving DecidableEq

/-- crawler.fetch up to (but excluding) the finally clause, shallowly
embedded.  Oracles: toIso models helper.to_isoformat; crawledAt is the
timestamp datetime.now would produce; getP and getJa are the outcomes of
the two session.get awaits, an error meaning the await raised.  When a get
raises, the except handler evaluates the dict literal whose first value is
crawled_at, a local that was never assigned on that path, so the handler
itself raises UnboundLocalError and doc_json keeps its initial empty
value.  When both statuses are 200 but a field expression of the success
literal raises, the handler runs with crawled_at bound and builds the
failure dict carrying the traceback text. -/
def fetch_internal (toIso : String → Option String) (crawledAt url : String)
    (getP getJa : Except String HttpResponse) : FetchState :=
  let urlJa := pyReplace url ".com/" ".com/ja_jp/"
  match getP with
  | Except.error _ => { doc := DocJson.empty, pending := some "UnboundLocalError: crawled_at" }
  | Except.ok rp =>
    match getJa with
    | Except.error _ => { doc := DocJson.empty, pending := some "UnboundLocalError: crawled_at" }
    | Except.ok rj =>
      if rp.status = 200 ∧ rj.status = 200 then
        match buildSuccessDoc toIso crawledAt url urlJa rp rj with
        | Except.ok d => { doc := DocJson.success d, pending := none }
        | Except.error e => { doc := DocJson.failure crawledAt url urlJa e, pending := none }
      else
        { doc := DocJson.empty, pending := none }

/-- crawler.fetch: the finally clause returns the current doc_json and
swallows whatever exception is pending, so the coroutine always returns a
dict and never raises. -/
def fetch (toIso : String → Option String) (crawledAt url : String)
    (getP getJa : Except String HttpResponse) : DocJson :=
  (fetch_internal toIso crawledAt url getP getJa).doc

/-- Model of awaiting asyncio.wait on the task list: with the default
ALL_COMPLETED it returns every completed task, but on an empty task set it
raises ValueError instead of returning. -/
def asyncio_wait (tasks : List DocJson) : Except String (List DocJson) :=
  if tasks.isEmpty then
    Except.error "ValueError: Set of coroutines/Futures is empty."
  else
    Except.ok tasks

/-- crawler.get_doc_by_service together with burst_fetch, on the data
level: one burst_fetch task is created per input URL (the semaphore only
schedules them, see the SemStep model below) and the task set is handed to
asyncio.wait, which raises on an empty set.  The oracle gives, per URL,
the crawl timestamp and the outcomes of the primary and ja requests. -/
def get_doc_by_service (toIso : String → Option String)
    (oracle : String → String × Except String HttpResponse × Except String HttpResponse)
    (urls : List String) : Except String (List DocJson) :=
  asyncio_wait (urls.map (fun u => fetch toIso (oracle u).1 u (oracle u).2.1 (oracle u).2.2))

/-- Value of the message key of a fetch result dict: absent for the empty
dict, None in the success dict, the traceback in the failure dict. -/
def doc_message : DocJson → Option String
  | DocJson.empty => none
  | DocJson.success _ => none
  | DocJson.failure _ _ _ m => some m

/-- Value of the html key (primary body): present only in the success dict. -/
def doc_html_field : DocJson → Option String
  | DocJson.success d => some d.html
  | _ => none

/-- Value of the html_ja key: present only in the success dict. -/
def doc_html_ja_field : DocJson → Option String
  | DocJson.success d => some d.html_ja
  | _ => none

/-- Value of the status key: present only in the success dict. -/
def doc_status_field : DocJson → Option Nat
  | DocJson.success d => some d.status
  | _ => none

/-- Lookup of url and url_ja performed at the top of helper.filter_data;
the empty dict raises KeyError there, which the surrounding try turns into
a skip. -/
def docUrls : DocJson → Option (String × String)
  | DocJson.empty => none
  | DocJson.success d => some (d.url, d.url_ja)
  | DocJson.failure _ u uj _ => some (u, uj)

/-- Remaining fields read when helper.filter_data assembles its output
record. -/
def docCrawledAt : DocJson → Option String
  | DocJson.success d => some d.crawled_at
  | DocJson.failure c _ _ _ => some c
  | DocJson.empty => none

/-- Value of the last_modified key where present. -/
def docLastModified : DocJson → Option String
  | DocJson.success d => some d.last_modified
  | _ => none

/-- Value of the last_modified_ja key where present. -/
def docLastModifiedJa : DocJson → Option String
  | DocJson.success d => some d.last_modified_ja
  | _ => none

/-- A meta element as read by the parse loop: its name and content
attributes, either possibly absent. -/
structure MetaTag where
  name : Option String
  content : Option String
deriving DecidableEq

/-- Modelled from the spec: the portions of the lxml document object that
helper._parse_html consumes, lxml being a third-party library whose code
is not part of this repository.  titles is the result of
cssselect("title") with each element's text (possibly null); metas is the
result of cssselect("meta"); cleanedText is clean_html(h).text_content(),
the visible text with script/style/comment nodes stripped. -/
structure LxmlDoc where
  titles : List (Option String)
  metas : List MetaTag
  cleanedText : String
deriving DecidableEq

/-- Python str.strip with no argument: drop whitespace from both ends. -/
def stripChars (l : List Char) : List Char :=
  ((l.dropWhile Char.isWhitespace).reverse.dropWhile Char.isWhitespace).reverse

/-- Python str.splitlines modelled as splitting on the newline character,
the only line separator in this pipeline's data; a trailing newline yields
one extra empty piece here, which the subsequent strip-and-join erases. -/
def splitOnNl : List Char → List (List Char)
  | [] => [[]]
  | c :: cs =>
    let r := splitOnNl cs
    if c = '\n' then [] :: r
    else
      match r with
      | [] => [[c]]
      | h :: t => (c :: h) :: t

/-- The content normalization in helper._parse_html:
"".join([line.strip() for line in content.splitlines()]). -/
def normalizeContent (s : String) : String :=
  String.mk (((splitOnNl s.data).map stripChars).flatten)

/-- Result record of helper._parse_html. -/
structure ParsedDoc where
  title : Option String
  product : Option String
  guide : Option String
  content : String
deriving DecidableEq

/-- Fold step of the meta loop in helper._parse_html: an element whose name
attribute is product overwrites the product slot, one named guide
overwrites the guide slot (so the last matching element wins); all other
elements leave the pair unchanged. -/
def metaStep (acc : Option String × Option String) (m : MetaTag) : Option String × Option String :=
  let acc1 := if m.name = some "product" then (m.content, acc.2) else acc
  if m.name = some "guide" then (acc1.1, m.content) else acc1

/-- helper._parse_html on the lxml view of the input HTML: the title is the
text of the first title element (the subscript [0] raises IndexError when
there is none, surfaced as an error and caught by the caller); the meta
loop fills product and guide; content is the trimmed-line join of the
cleaned text. -/
def parse_html_doc (d : LxmlDoc) : Except String ParsedDoc :=
  match d.titles with
  | [] => Except.error "IndexError: list index out of range"
  | t :: _ =>
    let pg := d.metas.foldl metaStep (none, none)
    Except.ok { title := t, product := pg.1, guide := pg.2,
                content := normalizeContent d.cleanedText }

/-- Application of lxml.html.fromstring followed by helper._parse_html: the
parse of the HTML text is abstracted as the oracle lx (an error modelling
fromstring or cssselect raising on malformed markup), and passing a
missing (None) body models lxml.html.fromstring(None) raising. -/
def parseHtmlField (lx : String → Except String LxmlDoc) :
    Option String → Except String ParsedDoc
  | none => Except.error "ValueError: can only parse strings"
  | some h =>
    match lx h with
    | Except.error e => Except.error e
    | Except.ok d => parse_html_doc d

/-- Output record of helper.filter_data, with the fields it reads from the
fetch dict kept at their dict optionality. -/
structure FilteredDoc where
  crawled_at : Option String
  url : String
  last_modified : Option String
  product : Option String
  guide : Option String
  title : Option String
  content : String
  raw_html : Option String
  url_ja : String
  last_modified_ja : Option String
  product_ja : Option String
  guide_ja : Option String
  title_ja : Option String
  content_ja : String
  raw_html_ja : Option String
deriving DecidableEq

/-- Record assembly at the end of the helper.filter_data loop body. -/
def mkFilteredDoc (d : DocJson) (url urlJa : String) (p pj : ParsedDoc) : FilteredDoc :=
  { crawled_at := docCrawledAt d, url := url, last_modified := docLastModified d,
    product := p.product, guide := p.guide, title := p.title, content := p.content,
    raw_html := doc_html_field d, url_ja := urlJa,
    last_modified_ja := docLastModifiedJa d, product_ja := pj.product,
    guide_ja := pj.guide, title_ja := pj.title, content_ja := pj.content,
    raw_html_ja := doc_html_ja_field d }

/-- helper.filter_data, shallowly embedded over the crawler's data_list:
skip a record on KeyError for url/url_ja, on the three case-insensitive
URL guards, or on any parse error for either body; otherwise append the
assembled record. -/
def filter_data (lx : String → Except String LxmlDoc) : List DocJson → List FilteredDoc
  | [] => []
  | d :: rest =>
    let tail := filter_data lx rest
    match docUrls d with
    | none => tail
    | some (url, urlJa) =>
      if strContains (lowerStr url) "apireference" then tail
      else if strContains (lowerStr url) "/cli/" then tail
      else if strContains (lowerStr url) "/code-samples/" then tail
      else
        match parseHtmlField lx (doc_html_field d), parseHtmlField lx (doc_html_ja_field d) with
        | Except.ok p, Except.ok pj => mkFilteredDoc d url urlJa p pj :: tail
        | _, _ => tail

/-- Guard chain of doc-translator/s3_download.filter_data applied to one
record read back from the raw jsonl (the status key is null for failure
records): true iff the record survives to the parse stage. -/
def s3_filter_guard (status : Option Nat) (url : String) : Bool :=
  status == some 200 && !(strContains (lowerStr url) "apireference")
    && !(strContains (lowerStr url) "/cli/") && !(strContains (lowerStr url) "/code-samples/")

/-- Outcome of the synchronous GET for one service sitemap inside
crawler.get_all_docs: the sitemap URL, and either a raised exception or a
status code together with the page URLs the XML parse extracts. -/
structure ServiceFetch where
  sitemapUrl : String
  result : Except String (Nat × List String)

/-- Contribution of one service sitemap to the crawler's data_list:
skipped when the deny-list rejects the sitemap URL, when the GET raises,
when the status is not 200, or when no extracted URL mentions the
canonical documentation host; otherwise one fetch result per surviving
page URL.  The error branch of the awaited call is unreachable here: the
zero-length skip guards the call exactly as the source's len check does
(were it reachable, the exception would abort the run). -/
def service_data (toIso : String → Option String)
    (oracle : String → String × Except String HttpResponse × Except String HttpResponse)
    (svc : ServiceFetch) : List DocJson :=
  if is_ok_url svc.sitemapUrl = false then []
  else
    match svc.result with
    | Except.error _ => []
    | Except.ok (status, urls) =>
      if status ≠ 200 then []
      else
        let f := urls.filter (fun u => strContains u "docs.aws.amazon.com")
        if f.isEmpty then []
        else
          match get_doc_by_service toIso oracle f with
          | Except.ok l => l
          | Except.error _ => []

/-- crawler.get_all_docs: accumulate every service's fetch results in
processing order, then filter the whole list once at the end. -/
def get_all_docs (toIso : String → Option String)
    (oracle : String → String × Except String HttpResponse × Except String HttpResponse)
    (lx : String → Except String LxmlDoc) (services : List ServiceFetch) : List FilteredDoc :=
  filter_data lx ((services.map (service_data toIso oracle)).flatten)

/-- Storage calls the two entry points can issue. -/
inductive S3Call where
  | downloadDir
  | uploadMerged
  | uploadPerDocument
deriving DecidableEq

/-- Tail of crawler.main: upload the merged jsonl only when the filtered
list is non-empty, otherwise log and skip the upload. -/
def crawler_main_tail (filtered : List FilteredDoc) : List S3Call :=
  if filtered.length > 0 then [S3Call.uploadMerged] else []

/-- crawler.main from discovery onward: the run result and the storage
calls it triggers. -/
def crawler_main (toIso : String → Option String)
    (oracle : String → String × Except String HttpResponse × Except String HttpResponse)
    (lx : String → Except String LxmlDoc) (services : List ServiceFetch) :
    List FilteredDoc × List S3Call :=
  let fl := get_all_docs toIso oracle lx services
  (fl, crawler_main_tail fl)

/-- Environment configuration read by doc-translator/s3_download.py via
os.environ.get; an absent variable is None. -/
structure TranslatorEnv where
  bucket : Option String
  keyPrefix : Option String
  timestamp : Option String
deriving DecidableEq

/-- Module-level initialization of s3_download.py, which computes
INPUT_PREFIX by string concatenation on PREFIX and TIMESTAMP: when either
is None the concatenation raises TypeError at import time, before main is
entered. -/
def s3_download_module_init (env : TranslatorEnv) : Except String String :=
  match env.keyPrefix, env.timestamp with
  | some p, some t => Except.ok (p ++ "/" ++ t ++ "/")
  | _, _ => Except.error "TypeError: unsupported operand types for +: NoneType and str"

/-- Body of s3_download.main before decoration: return 1 with no storage
or network call when BUCKET, PREFIX or TIMESTAMP is None; otherwise run
the download and the two uploads and fall off the end (None). -/
def s3_download_main_body (env : TranslatorEnv) : Option Int × List S3Call :=
  if env.bucket = none ∨ env.keyPrefix = none ∨ env.timestamp = none then
    (some 1, [])
  else
    (none, [S3Call.downloadDir, S3Call.uploadMerged, S3Call.uploadPerDocument])

/-- helper.calc_time: the decorator's wrapper calls the wrapped function,
discards its return value, and returns None; side effects still happen. -/
def calc_time (fn : α → Option β × List S3Call) : α → Option β × List S3Call :=
  fun a => (none, (fn a).2)

/-- Process exit status of running s3_download.py as a script: an uncaught
import-time TypeError exits with status 1; otherwise the bare main() call
at module bottom discards the wrapper's return value and, with no
sys.exit anywhere, the interpreter exits 0. -/
def s3_download_script_exit (env : TranslatorEnv) : Nat :=
  match s3_download_module_init env with
  | Except.error _ => 1
  | Except.ok _ =>
    let _ := calc_time s3_download_main_body env
    0

/-- Phase of one burst_fetch task inside a single get_doc_by_service call:
created but not yet past the semaphore, holding a permit with its fetch in
flight, or finished with the permit given back. -/
inductive TaskPhase where
  | waiting
  | running
  | done
deriving DecidableEq

/-- Scheduler state for one get_doc_by_service call: free permits of the
semaphore created at the top of the call, and the phase of every task. -/
structure SemState where
  permits : Nat
  tasks : List TaskPhase
deriving DecidableEq

/-- Initial state: a fresh semaphore with cap permits and one waiting task
per queued URL. -/
def initSemState (cap n : Nat) : SemState :=
  { permits := cap, tasks := List.replicate n TaskPhase.waiting }

/-- Number of fetch operations in flight. -/
def countRunning (l : List TaskPhase) : Nat :=
  (l.filter (fun p => p == TaskPhase.running)).length

/-- One cooperative scheduler step: entering the async-with acquires the
semaphore (possible only when a permit is free) and starts the fetch;
leaving the with block, on every exit path, releases the permit. -/
inductive SemStep : SemState → SemState → Prop where
  | acquire (i : Nat) (s : SemState) (h : s.tasks[i]? = some TaskPhase.waiting)
      (hp : 0 < s.permits) :
      SemStep s { permits := s.permits - 1, tasks := s.tasks.set i TaskPhase.running }
  | release (i : Nat) (s : SemState) (h : s.tasks[i]? = some TaskPhase.running) :
      SemStep s { permits := s.permits + 1, tasks := s.tasks.set i TaskPhase.done }

/-- States reachable during one get_doc_by_service call with semaphore
capacity cap and n queued URLs. -/
inductive SemReachable (cap n : Nat) : SemState → Prop where
  | init : SemReachable cap n (initSemState cap n)
  | step {s t : SemState} : SemReachable cap n s → SemStep s t → SemReachable cap n t

/-! ## Groundwork: unfolding equations for the replace model -/

theorem replaceFuel_congr (pat rep : List Char) :
    ∀ f g s, s.length ≤ f → s.length ≤ g →
      replaceFuel f pat rep s = replaceFuel g pat rep s := by
  intro f
  induction f with
  | zero =>
    intro g s hf _
    have hs : s = [] := List.eq_nil_of_length_eq_zero (Nat.le_zero.mp hf)
    subst hs
    cases g <;> rfl
  | succ f ih =>
    intro g s hf hg
    cases s with
    | nil => cases g <;> rfl
    | cons c cs =>
      cases g with
      | zero => simp at hg
      | succ g =>
        simp only [List.length_cons] at hf hg
        simp only [replaceFuel]
        by_cases h : pat ≠ [] ∧ isPre pat (c :: cs)
        · rw [if_pos h, if_pos h]
          have hp : 1 ≤ pat.length := by
            cases pat with
            | nil => exact absurd rfl h.1
            | cons a l => simp
          congr 1
          apply ih
          · simp only [List.length_drop, List.length_cons]
            omega
          · simp only [List.length_drop, List.length_cons]
            omega
        · rw [if_neg h, if_neg h]
          congr 1
          apply ih <;> omega

theorem replaceL_nil (pat rep : List Char) : replaceL pat rep [] = [] := rfl

theorem replaceL_cons (pat rep : List Char) (c : Char) (cs : List Char) :
    replaceL pat rep (c :: cs) =
      if pat ≠ [] ∧ isPre pat (c :: cs) then
        rep ++ replaceL pat rep (List.drop pat.length (c :: cs))
      else
        c :: replaceL pat rep cs := by
  show replaceFuel (c :: cs).length pat rep (c :: cs) = _
  simp only [List.length_cons, replaceFuel]
  by_cases h : pat ≠ [] ∧ isPre pat (c :: cs)
  · rw [if_pos h, if_pos h]
    have hp : 1 ≤ pat.length := by
      cases pat with
      | nil => exact absurd rfl h.1
      | cons a l => simp
    congr 1
    apply replaceFuel_congr
    · simp only [List.length_drop, List.length_cons]
      omega
    · exact Nat.le_refl _
  · rw [if_neg h, if_neg h]
    rfl

theorem isPre_append_self : ∀ (l t : List Char), isPre l (l ++ t) = true := by
  intro l
  induction l with
  | nil => intro t; rfl
  | cons c cs ih => intro t; simp [isPre, ih]

theorem replaceL_skip (pat rep : List Char) (c : Char) (cs : List Char)
    (h : isPre pat (c :: cs) = false) :
    replaceL pat rep (c :: cs) = c :: replaceL pat rep cs := by
  rw [replaceL_cons, if_neg]
  simp [h]

theorem replaceL_match (pat rep s : List Char) (hp : pat ≠ []) :
    replaceL pat rep (pat ++ s) = rep ++ replaceL pat rep s := by
  cases pat with
  | nil => exact absurd rfl hp
  | cons p pt =>
    rw [List.cons_append, replaceL_cons]
    have hpre : isPre (p :: pt) (p :: (pt ++ s)) = true := by
      have h1 := isPre_append_self (p :: pt) s
      simpa using h1
    rw [if_pos ⟨hp, hpre⟩]
    congr 1
    have hd : List.drop (p :: pt).length ((p :: pt) ++ s) = s := List.drop_left _ _
    rw [← List.cons_append, hd]

-- sanity examples (concrete evaluation of the embedded definitions)
example : is_ok_url "https://docs.aws.amazon.com/sdk-for-java/x.html" = false := by decide
example : is_ok_url "https://docs.aws.amazon.com/s3/index.html" = true := by decide
example : url_to_path "https://a.b/c" = "https___a__b_c" := by decide
example : path_to_url "https___a__b_c" = "https://a.b/c" := by decide
example : url_to_path (path_to_url (url_to_path "a_b.c/d://e")) = url_to_path "a_b.c/d://e" := by decide

theorem isPre_cons_false (p : Char) (ps : List Char) (c : Char) (cs : List Char) (h : p ≠ c) :
    isPre (p :: ps) (c :: cs) = false := by
  simp [isPre, h]

theorem decodeL_nil : decodeL [] = [] := rfl

theorem encodeL_nil : encodeL [] = [] := rfl

theorem decodeL_cons_other (c : Char) (w : List Char) (h : c ≠ '_') :
    decodeL (c :: w) = c :: decodeL w := by
  unfold decodeL
  rw [replaceL_skip _ _ _ _ (isPre_cons_false '_' ['_', '_'] c w (Ne.symm h)),
      replaceL_skip _ _ _ _ (isPre_cons_false '_' ['_'] c _ (Ne.symm h)),
      replaceL_skip _ _ _ _ (isPre_cons_false '_' [] c _ (Ne.symm h))]

theorem decodeL_u3 (w : List Char) :
    decodeL ('_' :: '_' :: '_' :: w) = ':' :: '/' :: '/' :: decodeL w := by
  unfold decodeL
  rw [show ('_' :: '_' :: '_' :: w) = ['_', '_', '_'] ++ w from rfl,
      replaceL_match _ _ _ (by decide)]
  simp only [List.cons_append, List.nil_append]
  rw [replaceL_skip _ _ _ _ (isPre_cons_false '_' ['_'] ':' _ (by decide)),
      replaceL_skip _ _ _ _ (isPre_cons_false '_' ['_'] '/' _ (by decide)),
      replaceL_skip _ _ _ _ (isPre_cons_false '_' ['_'] '/' _ (by decide)),
      replaceL_skip _ _ _ _ (isPre_cons_false '_' [] ':' _ (by decide)),
      replaceL_skip _ _ _ _ (isPre_cons_false '_' [] '/' _ (by decide)),
      replaceL_skip _ _ _ _ (isPre_cons_false '_' [] '/' _ (by decide))]

theorem headNotU_iff (w : List Char) :
    headNotU w = true ↔ (∀ c cs, w = c :: cs → c ≠ '_') := by
  cases w with
  | nil => simp [headNotU]
  | cons c cs => simp [headNotU]

theorem replaceL_u3_headNotU (w : List Char) (h : headNotU w = true) :
    headNotU (replaceL ['_', '_', '_'] [':', '/', '/'] w) = true := by
  cases w with
  | nil => simp [replaceL_nil, headNotU]
  | cons c cs =>
    have hc : c ≠ '_' := by
      simpa [headNotU] using h
    rw [replaceL_skip _ _ _ _ (isPre_cons_false '_' ['_', '_'] c cs (Ne.symm hc))]
    simpa [headNotU] using hc

theorem decodeL_u2 (w : List Char) (h : headNotU w = true) :
    decodeL ('_' :: '_' :: w) = '.' :: decodeL w := by
  unfold decodeL
  have h3a : isPre ['_', '_', '_'] ('_' :: '_' :: w) = false := by
    cases w with
    | nil => decide
    | cons c cs =>
      have hc : c ≠ '_' := by simpa [headNotU] using h
      simp [isPre, Ne.symm hc]
  rw [replaceL_skip _ _ _ _ h3a]
  have h3b : isPre ['_', '_', '_'] ('_' :: w) = false := by
    cases w with
    | nil => decide
    | cons c cs =>
      have hc : c ≠ '_' := by simpa [headNotU] using h
      simp [isPre, Ne.symm hc]
  rw [replaceL_skip _ _ _ _ h3b]
  rw [show ('_' :: '_' :: replaceL ['_', '_', '_'] [':', '/', '/'] w)
        = ['_', '_'] ++ replaceL ['_', '_', '_'] [':', '/', '/'] w from rfl,
      replaceL_match _ _ _ (by decide)]
  simp only [List.cons_append, List.nil_append]
  rw [replaceL_skip _ _ _ _ (isPre_cons_false '_' [] '.' _ (by decide))]

theorem decodeL_u1 (w : List Char) (h : headNotU w = true) :
    decodeL ('_' :: w) = '/' :: decodeL w := by
  unfold decodeL
  have h3 : isPre ['_', '_', '_'] ('_' :: w) = false := by
    cases w with
    | nil => decide
    | cons c cs =>
      have hc : c ≠ '_' := by simpa [headNotU] using h
      simp [isPre, Ne.symm hc]
  rw [replaceL_skip _ _ _ _ h3]
  have h2 : isPre ['_', '_'] ('_' :: replaceL ['_', '_', '_'] [':', '/', '/'] w) = false := by
    have hh := replaceL_u3_headNotU w h
    cases hx : replaceL ['_', '_', '_'] [':', '/', '/'] w with
    | nil => decide
    | cons c cs =>
      rw [hx] at hh
      have hc : c ≠ '_' := by simpa [headNotU] using hh
      simp [isPre, Ne.symm hc]
  rw [replaceL_skip _ _ _ _ h2]
  rw [show ('_' :: replaceL ['_', '_'] ['.'] (replaceL ['_', '_', '_'] [':', '/', '/'] w))
        = ['_'] ++ replaceL ['_', '_'] ['.'] (replaceL ['_', '_', '_'] [':', '/', '/'] w) from rfl,
      replaceL_match _ _ _ (by decide)]
  simp only [List.cons_append, List.nil_append]

theorem encodeL_cons_other (c : Char) (v : List Char) (h1 : c ≠ ':') (h2 : c ≠ '.')
    (h3 : c ≠ '/') : encodeL (c :: v) = c :: encodeL v := by
  unfold encodeL
  rw [replaceL_skip _ _ _ _ (isPre_cons_false ':' ['/', '/'] c v (Ne.symm h1)),
      replaceL_skip _ _ _ _ (isPre_cons_false '.' [] c _ (Ne.symm h2)),
      replaceL_skip _ _ _ _ (isPre_cons_false '/' [] c _ (Ne.symm h3))]

theorem encodeL_cons_colon (v : List Char) (h : isPre ['/', '/'] v = false) :
    encodeL (':' :: v) = ':' :: encodeL v := by
  unfold encodeL
  have hc : isPre [':', '/', '/'] (':' :: v) = false := by
    simpa [isPre] using h
  rw [replaceL_skip _ _ _ _ hc,
      replaceL_skip _ _ _ _ (isPre_cons_false '.' [] ':' _ (by decide)),
      replaceL_skip _ _ _ _ (isPre_cons_false '/' [] ':' _ (by decide))]

theorem encodeL_cons_dot (v : List Char) : encodeL ('.' :: v) = '_' :: '_' :: encodeL v := by
  unfold encodeL
  rw [replaceL_skip _ _ _ _ (isPre_cons_false ':' ['/', '/'] '.' v (by decide)),
      show ('.' :: replaceL [':', '/', '/'] ['_', '_', '_'] v)
        = ['.'] ++ replaceL [':', '/', '/'] ['_', '_', '_'] v from rfl,
      replaceL_match _ _ _ (by decide)]
  simp only [List.cons_append, List.nil_append]
  rw [replaceL_skip _ _ _ _ (isPre_cons_false '/' [] '_' _ (by decide)),
      replaceL_skip _ _ _ _ (isPre_cons_false '/' [] '_' _ (by decide))]

theorem encodeL_cons_slash (v : List Char) : encodeL ('/' :: v) = '_' :: encodeL v := by
  unfold encodeL
  rw [replaceL_skip _ _ _ _ (isPre_cons_false ':' ['/', '/'] '/' v (by decide)),
      replaceL_skip _ _ _ _ (isPre_cons_false '.' [] '/' _ (by decide)),
      show ('/' :: replaceL ['.'] ['_', '_'] (replaceL [':', '/', '/'] ['_', '_', '_'] v))
        = ['/'] ++ replaceL ['.'] ['_', '_'] (replaceL [':', '/', '/'] ['_', '_', '_'] v) from rfl,
      replaceL_match _ _ _ (by decide)]
  simp only [List.cons_append, List.nil_append]

theorem encodeL_css (v : List Char) :
    encodeL (':' :: '/' :: '/' :: v) = '_' :: '_' :: '_' :: encodeL v := by
  unfold encodeL
  rw [show (':' :: '/' :: '/' :: v) = [':', '/', '/'] ++ v from rfl,
      replaceL_match _ _ _ (by decide)]
  simp only [List.cons_append, List.nil_append]
  rw [replaceL_skip _ _ _ _ (isPre_cons_false '.' [] '_' _ (by decide)),
      replaceL_skip _ _ _ _ (isPre_cons_false '.' [] '_' _ (by decide)),
      replaceL_skip _ _ _ _ (isPre_cons_false '.' [] '_' _ (by decide)),
      replaceL_skip _ _ _ _ (isPre_cons_false '/' [] '_' _ (by decide)),
      replaceL_skip _ _ _ _ (isPre_cons_false '/' [] '_' _ (by decide)),
      replaceL_skip _ _ _ _ (isPre_cons_false '/' [] '_' _ (by decide))]

theorem mem_replaceFuel (pat rep : List Char) :
    ∀ f s c, c ∈ replaceFuel f pat rep s → c ∈ s ∨ c ∈ rep := by
  intro f
  induction f with
  | zero => intro s c h; exact Or.inl h
  | succ f ih =>
    intro s c h
    cases s with
    | nil => simp [replaceFuel] at h
    | cons a t =>
      simp only [replaceFuel] at h
      by_cases hc : pat ≠ [] ∧ isPre pat (a :: t)
      · rw [if_pos hc] at h
        rcases List.mem_append.mp h with h1 | h2
        · exact Or.inr h1
        · rcases ih _ _ h2 with h3 | h4
          · exact Or.inl (List.mem_of_mem_drop h3)
          · exact Or.inr h4
      · rw [if_neg hc] at h
        rcases List.mem_cons.mp h with h1 | h2
        · exact Or.inl (h1 ▸ List.mem_cons_self a t)
        · rcases ih _ _ h2 with h3 | h4
          · exact Or.inl (List.mem_cons_of_mem a h3)
          · exact Or.inr h4

theorem mem_replaceL (pat rep s : List Char) (c : Char) (h : c ∈ replaceL pat rep s) :
    c ∈ s ∨ c ∈ rep :=
  mem_replaceFuel pat rep s.length s c h

theorem not_mem_replaceFuel_single (p : Char) (rep : List Char) (hrep : p ∉ rep) :
    ∀ f s, s.length ≤ f → p ∉ replaceFuel f [p] rep s := by
  intro f
  induction f with
  | zero =>
    intro s hf
    have hs : s = [] := List.eq_nil_of_length_eq_zero (Nat.le_zero.mp hf)
    subst hs
    simp [replaceFuel]
  | succ f ih =>
    intro s hf
    cases s with
    | nil => simp [replaceFuel]
    | cons a t =>
      simp only [List.length_cons] at hf
      simp only [replaceFuel]
      by_cases hc : ([p] : List Char) ≠ [] ∧ isPre [p] (a :: t)
      · rw [if_pos hc]
        intro hmem
        rcases List.mem_append.mp hmem with h1 | h2
        · exact hrep h1
        · have hlen : (List.drop [p].length (a :: t)).length ≤ f := by
            simp only [List.length_drop, List.length_cons, List.length_singleton]
            omega
          exact ih _ hlen h2
      · rw [if_neg hc]
        intro hmem
        rcases List.mem_cons.mp hmem with h1 | h2
        · apply hc
          refine ⟨by simp, ?_⟩
          simp [isPre, h1]
        · exact ih t (by omega) h2

theorem not_mem_replaceL_single (p : Char) (rep : List Char) (hrep : p ∉ rep) (s : List Char) :
    p ∉ replaceL [p] rep s :=
  not_mem_replaceFuel_single p rep hrep s.length s (Nat.le_refl _)

theorem encodeL_no_slash (u : List Char) : '/' ∉ encodeL u :=
  not_mem_replaceL_single '/' ['_'] (by decide) _

theorem encodeL_no_dot (u : List Char) : '.' ∉ encodeL u := by
  intro h
  rcases mem_replaceL _ _ _ _ h with h1 | h2
  · exact not_mem_replaceL_single '.' ['_', '_'] (by decide) _ h1
  · simp at h2

theorem decodeL_not_slashslash (w : List Char) (hw : '/' ∉ w) :
    isPre ['/', '/'] (decodeL w) = false := by
  cases w with
  | nil => rfl
  | cons c w2 =>
    rw [List.mem_cons] at hw
    push_neg at hw
    by_cases hc : c = '_'
    · subst hc
      cases w2 with
      | nil => decide
      | cons d w3 =>
        by_cases hd : d = '_'
        · subst hd
          cases w3 with
          | nil => decide
          | cons e w4 =>
            by_cases he : e = '_'
            · subst he
              rw [decodeL_u3]
              exact isPre_cons_false '/' ['/'] ':' _ (by decide)
            · rw [decodeL_u2 _ (by simp [headNotU, he])]
              exact isPre_cons_false '/' ['/'] '.' _ (by decide)
        · rw [decodeL_u1 _ (by simp [headNotU, hd])]
          have hds : d ≠ '/' := by
            intro hdd
            exact hw.2 (hdd ▸ List.mem_cons_self d w3)
          rw [decodeL_cons_other d w3 hd]
          simp [isPre, Ne.symm hds]
    · rw [decodeL_cons_other c w2 hc]
      exact isPre_cons_false '/' ['/'] c _ hw.1

theorem encode_decode_aux :
    ∀ n w, List.length w ≤ n → '.' ∉ w → '/' ∉ w → encodeL (decodeL w) = w := by
  intro n
  induction n with
  | zero =>
    intro w hw _ _
    have hs : w = [] := List.eq_nil_of_length_eq_zero (Nat.le_zero.mp hw)
    subst hs
    rfl
  | succ n ih =>
    intro w hw hdot hslash
    cases w with
    | nil => rfl
    | cons c w2 =>
      rw [List.mem_cons] at hdot hslash
      push_neg at hdot hslash
      simp only [List.length_cons] at hw
      by_cases hc : c = '_'
      · subst hc
        cases w2 with
        | nil => decide
        | cons d w3 =>
          rw [List.mem_cons] at hdot hslash
          push_neg at hdot hslash
          simp only [List.length_cons] at hw
          by_cases hd : d = '_'
          · subst hd
            cases w3 with
            | nil => decide
            | cons e w4 =>
              rw [List.mem_cons] at hdot hslash
              push_neg at hdot hslash
              simp only [List.length_cons] at hw
              by_cases he : e = '_'
              · subst he
                rw [decodeL_u3, encodeL_css]
                rw [ih w4 (by omega) hdot.2.2.2 hslash.2.2.2]
              · rw [decodeL_u2 _ (by simp [headNotU, he]), encodeL_cons_dot]
                rw [ih (e :: w4) (by simp; omega)
                      (by rw [List.mem_cons]; push_neg; exact hdot.2.2)
                      (by rw [List.mem_cons]; push_neg; exact hslash.2.2)]
          · rw [decodeL_u1 _ (by simp [headNotU, hd]), encodeL_cons_slash]
            rw [ih (d :: w3) (by simp; omega)
                  (by rw [List.mem_cons]; push_neg; exact hdot.2)
                  (by rw [List.mem_cons]; push_neg; exact hslash.2)]
      · rw [decodeL_cons_other c w2 hc]
        by_cases hcc : c = ':'
        · subst hcc
          rw [encodeL_cons_colon _ (decodeL_not_slashslash w2 hslash.2)]
          rw [ih w2 (by omega) hdot.2 hslash.2]
        · rw [encodeL_cons_other c _ hcc (fun h => hdot.1 h.symm) (fun h => hslash.1 h.symm)]
          rw [ih w2 (by omega) hdot.2 hslash.2]

theorem encodeL_decodeL_of_clean (w : List Char) (hdot : '.' ∉ w) (hslash : '/' ∉ w) :
    encodeL (decodeL w) = w :=
  encode_decode_aux w.length w (Nat.le_refl _) hdot hslash

theorem url_to_path_data (s : String) : url_to_path s = String.mk (encodeL s.data) := rfl

theorem path_to_url_data (s : String) : path_to_url s = String.mk (decodeL s.data) := rfl

/-- C6: the URL-to-path escaping scheme round-trips through its inverse
decode function: for every URL string, including ones containing scheme
separators, dots and slashes, url_to_path (path_to_url (url_to_path url))
equals url_to_path url. -/
theorem url_path_round_trip (url : String) :
    url_to_path (path_to_url (url_to_path url)) = url_to_path url := by
  rw [url_to_path_data url, path_to_url_data, url_to_path_data]
  show String.mk (encodeL (decodeL (encodeL url.data))) = String.mk (encodeL url.data)
  rw [encodeL_decodeL_of_clean (encodeL url.data) (encodeL_no_dot url.data)
        (encodeL_no_slash url.data)]

theorem buildSuccessDoc_ok_iff (toIso : String → Option String) (t u uj : String)
    (rp rj : HttpResponse) :
    (∃ d, buildSuccessDoc toIso t u uj rp rj = Except.ok d) ↔
      ((∃ v, rp.lastModifiedHeader = some v ∧ (toIso v).isSome) ∧ rp.etagHeader ≠ none ∧
       (∃ w, rj.lastModifiedHeader = some w ∧ (toIso w).isSome) ∧ rj.etagHeader ≠ none) := by
  cases hv : rp.lastModifiedHeader with
  | none => simp [buildSuccessDoc, headerGet, hv]
  | some v =>
    cases hiv : toIso v with
    | none => simp [buildSuccessDoc, headerGet, toIsoApp, hv, hiv]
    | some iv =>
      cases het : rp.etagHeader with
      | none => simp [buildSuccessDoc, headerGet, toIsoApp, hv, hiv, het]
      | some et =>
        cases hw : rj.lastModifiedHeader with
        | none => simp [buildSuccessDoc, headerGet, toIsoApp, hv, hiv, het, hw]
        | some w =>
          cases hiw : toIso w with
          | none => simp [buildSuccessDoc, headerGet, toIsoApp, hv, hiv, het, hw, hiw]
          | some iw =>
            cases hetj : rj.etagHeader with
            | none => simp [buildSuccessDoc, headerGet, toIsoApp, hv, hiv, het, hw, hiw, hetj]
            | some etj => simp [buildSuccessDoc, headerGet, toIsoApp, hv, hiv, het, hw, hiw, hetj]

/-- C1 (amended): for responses that complete without raising, the fetch
operation yields a success dict iff both statuses are 200 and, on both
responses, the Last-Modified header is present and parseable and the Etag
header is present; for any status combination other than 200/200 it
returns the empty dict, which carries no fields at all — not a
failure-only record with the message set, as the in-code failure shape is
produced only by the exception handler. -/
theorem fetch_success_characterization (toIso : String → Option String) (t url : String)
    (rp rj : HttpResponse) :
    ((∃ d, fetch toIso t url (Except.ok rp) (Except.ok rj) = DocJson.success d) ↔
      (rp.status = 200 ∧ rj.status = 200 ∧
        (∃ v, rp.lastModifiedHeader = some v ∧ (toIso v).isSome) ∧ rp.etagHeader ≠ none ∧
        (∃ w, rj.lastModifiedHeader = some w ∧ (toIso w).isSome) ∧ rj.etagHeader ≠ none))
    ∧ (¬(rp.status = 200 ∧ rj.status = 200) →
        fetch toIso t url (Except.ok rp) (Except.ok rj) = DocJson.empty) := by
  constructor
  · constructor
    · rintro ⟨d, hd⟩
      by_cases hs : rp.status = 200 ∧ rj.status = 200
      · refine ⟨hs.1, hs.2, ?_⟩
        rcases hb : buildSuccessDoc toIso t url (pyReplace url ".com/" ".com/ja_jp/") rp rj with m | d2
        · exfalso
          simp [fetch, fetch_internal, hs, hb] at hd
        · exact (buildSuccessDoc_ok_iff toIso t url (pyReplace url ".com/" ".com/ja_jp/") rp rj).mp ⟨d2, hb⟩
      · exfalso
        simp [fetch, fetch_internal, hs] at hd
    · rintro ⟨h200p, h200j, hcond⟩
      obtain ⟨d2, hb⟩ :=
        (buildSuccessDoc_ok_iff toIso t url (pyReplace url ".com/" ".com/ja_jp/") rp rj).mpr hcond
      exact ⟨d2, by simp [fetch, fetch_internal, h200p, h200j, hb]⟩
  · intro hs
    simp [fetch, fetch_internal, hs]

/-- C1 counterexample: with the primary response at 200 and the ja variant
at 404 and no exception anywhere, fetch returns the empty dict, which has
no data fields and no failure indicator — not the claimed failure-only
record with every data field null and the message set. -/
theorem fetch_non200_counterexample :
    fetch (fun s => some s) "2020-01-01T00:00:00" "https://docs.aws.amazon.com/x/a.html"
        (Except.ok ⟨200, some "lm", some "et", "body"⟩)
        (Except.ok ⟨404, none, none, "notfound"⟩) = DocJson.empty
    ∧ doc_message DocJson.empty = none := ⟨rfl, rfl⟩

theorem fetch_success_characterization_witness :
    fetch (fun s => some s) "t" "https://docs.aws.amazon.com/y/b.html"
        (Except.ok ⟨200, some "lm", some "et", "b1"⟩)
        (Except.ok ⟨500, some "lm", some "et", "b2"⟩) = DocJson.empty :=
  (fetch_success_characterization (fun s => some s) "t" "https://docs.aws.amazon.com/y/b.html"
      ⟨200, some "lm", some "et", "b1"⟩ ⟨500, some "lm", some "et", "b2"⟩).2 (by decide)

/-- C2 (amended): no exception ever propagates out of fetch — the return
inside the finally clause always yields the current doc_json, so one bad
URL never aborts a batch, and for every non-empty URL batch
get_doc_by_service completes without raising and produces one result per
URL.  An exception raised after both GETs completed (missing or malformed
header) yields the failure dict carrying the exception detail as message;
but when one of the GETs itself raises, the except handler reads the
still-unbound crawled_at local, itself raises, and the swallowed outcome
is the empty dict with no message at all.  Moreover the original claim's
universal never-raises fails at the empty batch: asyncio.wait raises
ValueError on an empty task set (the crawler guards its call site with a
zero-length skip). -/
theorem fetch_exception_swallowing :
    (∀ (toIso : String → Option String) (t url e : String) (getJa : Except String HttpResponse),
        fetch toIso t url (Except.error e) getJa = DocJson.empty ∧
        (fetch_internal toIso t url (Except.error e) getJa).pending ≠ none)
    ∧ (∀ (toIso : String → Option String) (t url e : String) (rp : HttpResponse),
        fetch toIso t url (Except.ok rp) (Except.error e) = DocJson.empty ∧
        (fetch_internal toIso t url (Except.ok rp) (Except.error e)).pending ≠ none)
    ∧ (∀ (toIso : String → Option String) (t url m : String) (rp rj : HttpResponse),
        rp.status = 200 → rj.status = 200 →
        buildSuccessDoc toIso t url (pyReplace url ".com/" ".com/ja_jp/") rp rj = Except.error m →
        fetch toIso t url (Except.ok rp) (Except.ok rj) =
          DocJson.failure t url (pyReplace url ".com/" ".com/ja_jp/") m)
    ∧ (∀ (toIso : String → Option String)
        (oracle : String → String × Except String HttpResponse × Except String HttpResponse)
        (urls : List String), urls ≠ [] →
        ∃ l, get_doc_by_service toIso oracle urls = Except.ok l ∧ l.length = urls.length)
    ∧ (∀ (toIso : String → Option String)
        (oracle : String → String × Except String HttpResponse × Except String HttpResponse),
        get_doc_by_service toIso oracle []
          = Except.error "ValueError: Set of coroutines/Futures is empty.") := by
  refine ⟨?_, ?_, ?_, ?_, ?_⟩
  · intro toIso t url e getJa
    exact ⟨rfl, by simp [fetch_internal]⟩
  · intro toIso t url e rp
    exact ⟨rfl, by simp [fetch_internal]⟩
  · intro toIso t url m rp rj hp hj hb
    simp [fetch, fetch_internal, hp, hj, hb]
  · intro toIso oracle urls hne
    cases urls with
    | nil => exact absurd rfl hne
    | cons u us =>
      refine ⟨(u :: us).map
        (fun x => fetch toIso (oracle x).1 x (oracle x).2.1 (oracle x).2.2), rfl, ?_⟩
      simp
  · intro toIso oracle
    rfl

/-- C2 counterexample: when the primary GET raises, the result is the
empty dict — its message field is absent, not the claimed failure record
carrying the exception detail. -/
theorem fetch_get_error_counterexample :
    fetch (fun s => some s) "t" "https://docs.aws.amazon.com/z/c.html"
        (Except.error "ConnectionError: host unreachable")
        (Except.ok ⟨200, some "lm", some "et", "b"⟩) = DocJson.empty
    ∧ doc_message DocJson.empty = none := ⟨rfl, rfl⟩

theorem fetch_exception_swallowing_witness :
    (fetch (fun _ => none) "t" "https://docs.aws.amazon.com/w/d.html"
        (Except.ok ⟨200, some "lm", some "et", "b1"⟩)
        (Except.ok ⟨200, some "lm", some "et", "b2"⟩) =
      DocJson.failure "t" "https://docs.aws.amazon.com/w/d.html"
        (pyReplace "https://docs.aws.amazon.com/w/d.html" ".com/" ".com/ja_jp/")
        "ValueError: time data lm does not match the expected format")
    ∧ (∃ l, get_doc_by_service (fun _ => none)
        (fun _ => ("t", Except.error "e", Except.error "e"))
        ["https://docs.aws.amazon.com/w/d.html"] = Except.ok l ∧ l.length = 1) :=
  ⟨fetch_exception_swallowing.2.2.1 (fun _ => none) "t" "https://docs.aws.amazon.com/w/d.html"
     "ValueError: time data lm does not match the expected format"
     ⟨200, some "lm", some "et", "b1"⟩ ⟨200, some "lm", some "et", "b2"⟩ rfl rfl rfl,
   fetch_exception_swallowing.2.2.2.1 (fun _ => none)
     (fun _ => ("t", Except.error "e", Except.error "e"))
     ["https://docs.aws.amazon.com/w/d.html"] (List.cons_ne_nil _ _)⟩

/-- C10: when both responses return 200 but either lacks a Last-Modified
or an Etag header, the header subscript raises inside the success literal,
the except handler (with crawled_at now bound) builds the failure dict,
and fetch returns a failure record with the diagnostic as message rather
than a success: presence of both headers on both responses is a
precondition of success. -/
theorem fetch_missing_header_failure (toIso : String → Option String) (t url : String)
    (rp rj : HttpResponse) (hp : rp.status = 200) (hj : rj.status = 200)
    (hmiss : rp.lastModifiedHeader = none ∨ rp.etagHeader = none ∨
             rj.lastModifiedHeader = none ∨ rj.etagHeader = none) :
    ∃ m, fetch toIso t url (Except.ok rp) (Except.ok rj) =
      DocJson.failure t url (pyReplace url ".com/" ".com/ja_jp/") m := by
  have hb : ∃ m, buildSuccessDoc toIso t url (pyReplace url ".com/" ".com/ja_jp/") rp rj
      = Except.error m := by
    rcases hbb : buildSuccessDoc toIso t url (pyReplace url ".com/" ".com/ja_jp/") rp rj with m | d
    · exact ⟨m, rfl⟩
    · exfalso
      obtain ⟨⟨v, hv, _⟩, het, ⟨w, hw, _⟩, hetj⟩ :=
        (buildSuccessDoc_ok_iff toIso t url (pyReplace url ".com/" ".com/ja_jp/") rp rj).mp ⟨d, hbb⟩
      rcases hmiss with h | h | h | h
      · rw [h] at hv; exact Option.noConfusion hv
      · exact het h
      · rw [h] at hw; exact Option.noConfusion hw
      · exact hetj h
  obtain ⟨m, hm⟩ := hb
  exact ⟨m, by simp [fetch, fetch_internal, hp, hj, hm]⟩

theorem fetch_missing_header_failure_witness :
    ∃ m, fetch (fun s => some s) "t" "https://docs.aws.amazon.com/v/e.html"
        (Except.ok ⟨200, some "lm", some "et", "b1"⟩)
        (Except.ok ⟨200, some "lm", none, "b2"⟩) =
      DocJson.failure "t" "https://docs.aws.amazon.com/v/e.html"
        (pyReplace "https://docs.aws.amazon.com/v/e.html" ".com/" ".com/ja_jp/") m :=
  fetch_missing_header_failure (fun s => some s) "t" "https://docs.aws.amazon.com/v/e.html"
    ⟨200, some "lm", some "et", "b1"⟩ ⟨200, some "lm", none, "b2"⟩ rfl rfl
    (Or.inr (Or.inr (Or.inr rfl)))

/-- C3 (amended): the deny-list test in is_ok_url uses the Python in
operator, a case-sensitive substring check: the predicate returns true iff
no marker of ng_list occurs in the URL exactly as listed (it is pure and
total by construction); a URL containing a marker in a different letter
case, such as SDK-FOR-JAVA, is not rejected. -/
theorem is_ok_url_characterization (url : String) :
    is_ok_url url = true ↔ ∀ ng ∈ ng_list, strContains url ng = false := by
  simp [is_ok_url, List.all_eq_true]

/-- C3 counterexample: a URL containing the deny marker sdk-for-java in
upper case passes is_ok_url, although the claim requires every URL
containing a marker in any letter case to be rejected. -/
theorem is_ok_url_case_counterexample :
    is_ok_url "https://docs.aws.amazon.com/SDK-FOR-JAVA/welcome.html" = true
    ∧ strContains (lowerStr "https://docs.aws.amazon.com/SDK-FOR-JAVA/welcome.html")
        "sdk-for-java" = true := by
  exact ⟨by decide, by decide⟩

/-- C4 exhibit: with BUCKET unset but PREFIX and TIMESTAMP set, main's
body returns 1 before any storage or network call, but the calc_time
wrapper returns None in its place and the bare main() call at module
bottom never reaches sys.exit, so the interpreter exits 0 — the non-zero
status never reaches the process boundary, contradicting the claim.  (A
missing PREFIX, by contrast, aborts at import time with an uncaught
TypeError and a non-zero interpreter exit.) -/
theorem s3_download_missing_bucket_exit :
    s3_download_main_body { bucket := none, keyPrefix := some "p", timestamp := some "t" }
        = (some 1, [])
    ∧ calc_time s3_download_main_body
        { bucket := none, keyPrefix := some "p", timestamp := some "t" } = (none, [])
    ∧ s3_download_script_exit { bucket := none, keyPrefix := some "p", timestamp := some "t" } = 0
    ∧ s3_download_script_exit { bucket := some "b", keyPrefix := none, timestamp := some "t" } = 1 :=
  ⟨rfl, rfl, rfl, rfl⟩

/-- C5: a fetch-result record that carries a set failure message, or lacks
the primary or the variant HTML body, or whose primary status is not 200
(under the data-model invariant that a success record's status is 200),
contributes no output record to helper.filter_data, which continues with
the rest; the s3_download variant of filter_data additionally drops any
record whose status key is not 200 by an explicit guard; and a page whose
primary response is 200 but whose variant response is 404 yields the
empty dict at fetch, hence zero records. -/
theorem filter_data_drops_unusable :
    (∀ (lx : String → Except String LxmlDoc) (d : DocJson) (rest : List DocJson),
        (∀ s, d = DocJson.success s → s.status = 200) →
        (doc_message d ≠ none ∨ doc_html_field d = none ∨ doc_html_ja_field d = none ∨
          doc_status_field d ≠ some 200) →
        filter_data lx (d :: rest) = filter_data lx rest)
    ∧ (∀ (status : Option Nat) (url : String), status ≠ some 200 →
        s3_filter_guard status url = false)
    ∧ (∀ (lx : String → Except String LxmlDoc) (toIso : String → Option String)
        (t url : String) (rp rj : HttpResponse), rj.status = 404 →
        filter_data lx [fetch toIso t url (Except.ok rp) (Except.ok rj)] = []) := by
  refine ⟨?_, ?_, ?_⟩
  · intro lx d rest hinv hdrop
    cases d with
    | empty => simp [filter_data, docUrls]
    | success s =>
      exfalso
      have h200 : s.status = 200 := hinv s rfl
      rcases hdrop with h | h | h | h
      · exact h rfl
      · simp [doc_html_field] at h
      · simp [doc_html_ja_field] at h
      · simp [doc_status_field, h200] at h
    | failure c u uj m =>
      simp [filter_data, docUrls, doc_html_field, doc_html_ja_field, parseHtmlField]
  · intro status url h
    have hb : (status == some 200) = false := beq_eq_false_iff_ne.mpr h
    simp [s3_filter_guard, hb]
  · intro lx toIso t url rp rj h404
    have hs : ¬(rp.status = 200 ∧ rj.status = 200) := by
      rintro ⟨_, h2⟩
      rw [h404] at h2
      exact absurd h2 (by decide)
    have he : fetch toIso t url (Except.ok rp) (Except.ok rj) = DocJson.empty := by
      simp [fetch, fetch_internal, hs]
    rw [he]
    simp [filter_data, docUrls]

theorem filter_data_drops_unusable_witness :
    filter_data (fun _ => Except.error "x") [DocJson.empty] = []
    ∧ s3_filter_guard none "https://docs.aws.amazon.com/a.html" = false := by
  constructor
  · exact filter_data_drops_unusable.1 (fun _ => Except.error "x") DocJson.empty []
      (fun s hs => DocJson.noConfusion hs) (Or.inr (Or.inl rfl))
  · exact filter_data_drops_unusable.2.1 none "https://docs.aws.amazon.com/a.html" (by decide)

/-- C7: on the lxml view of the HTML with title element Guide, one meta
element named product with content S3, no guide meta, and cleaned body
text of two lines around a newline, parsing extracts title Guide, product
S3, a null guide, and the content HelloWorld obtained by trimming each
line and concatenating lines with no separator. -/
theorem parse_html_guide_s3_eval :
    parse_html_doc { titles := [some "Guide"],
                     metas := [{ name := some "product", content := some "S3" }],
                     cleanedText := "  Hello \n World " }
      = Except.ok { title := some "Guide", product := some "S3", guide := none,
                    content := "HelloWorld" } := rfl

/-- C8: the crawler hands the run result to storage iff it is non-empty —
the upload branch runs exactly when the filtered list has positive length —
and a discovery in which every service sitemap is deny-listed produces an
empty run result and no storage call, a valid terminal state. -/
theorem crawler_upload_iff_nonempty :
    (∀ (toIso : String → Option String)
       (oracle : String → String × Except String HttpResponse × Except String HttpResponse)
       (lx : String → Except String LxmlDoc) (services : List ServiceFetch),
        ((crawler_main toIso oracle lx services).2 ≠ [] ↔
          (crawler_main toIso oracle lx services).1 ≠ []))
    ∧ (∀ (toIso : String → Option String)
       (oracle : String → String × Except String HttpResponse × Except String HttpResponse)
       (lx : String → Except String LxmlDoc) (services : List ServiceFetch),
        (∀ svc ∈ services, is_ok_url svc.sitemapUrl = false) →
        crawler_main toIso oracle lx services = ([], [])) := by
  constructor
  · intro toIso oracle lx services
    simp only [crawler_main, crawler_main_tail]
    by_cases h : (get_all_docs toIso oracle lx services).length > 0
    · rw [if_pos h]
      constructor
      · intro _
        intro hnil
        rw [hnil] at h
        simp at h
      · intro _
        simp
    · rw [if_neg h]
      have hnil : get_all_docs toIso oracle lx services = [] :=
        List.eq_nil_of_length_eq_zero (by omega)
      simp [hnil]
  · intro toIso oracle lx services
    induction services with
    | nil => intro _; rfl
    | cons s ss ih =>
      intro hall
      have hs : is_ok_url s.sitemapUrl = false := hall s (List.mem_cons_self s ss)
      have ihh := ih (fun svc h => hall svc (List.mem_cons_of_mem s h))
      simp only [crawler_main, get_all_docs, List.map_cons, List.flatten_cons] at ihh ⊢
      rw [show service_data toIso oracle s = [] from by simp [service_data, hs]]
      simp only [List.nil_append]
      exact ihh

theorem crawler_upload_iff_nonempty_witness :
    crawler_main (fun s => some s)
      (fun _ => ("t", Except.error "e", Except.error "e"))
      (fun _ => Except.error "x")
      [{ sitemapUrl := "https://docs.aws.amazon.com/sdk-for-ruby/sitemap.xml",
         result := Except.ok (200, ["https://docs.aws.amazon.com/sdk-for-ruby/a.html"]) }]
      = ([], []) := by
  apply crawler_upload_iff_nonempty.2
  intro svc hm
  rw [List.mem_singleton] at hm
  subst hm
  decide

theorem countRunning_cons (x : TaskPhase) (xs : List TaskPhase) :
    countRunning (x :: xs) = (if x = TaskPhase.running then 1 else 0) + countRunning xs := by
  by_cases hx : x = TaskPhase.running
  · subst hx
    simp [countRunning, List.filter_cons]
    omega
  · have hb : (x == TaskPhase.running) = false := beq_eq_false_iff_ne.mpr hx
    simp [countRunning, List.filter_cons, hb, hx]

theorem countRunning_replicate_waiting (n : Nat) :
    countRunning (List.replicate n TaskPhase.waiting) = 0 := by
  induction n with
  | zero => rfl
  | succ n ih => simp [List.replicate_succ, countRunning_cons, ih]

theorem countRunning_set (l : List TaskPhase) (i : Nat) (a b : TaskPhase)
    (h : l[i]? = some a) :
    countRunning (l.set i b) + (if a = TaskPhase.running then 1 else 0)
      = countRunning l + (if b = TaskPhase.running then 1 else 0) := by
  induction l generalizing i with
  | nil => simp at h
  | cons x xs ih =>
    cases i with
    | zero =>
      simp only [List.getElem?_cons_zero, Option.some.injEq] at h
      subst h
      simp only [List.set_cons_zero, countRunning_cons]
      omega
    | succ i =>
      simp only [List.getElem?_cons_succ] at h
      have := ih i h
      simp only [List.set_cons_succ, countRunning_cons]
      omega

theorem countRunning_set_acquire (l : List TaskPhase) (i : Nat)
    (h : l[i]? = some TaskPhase.waiting) :
    countRunning (l.set i TaskPhase.running) = countRunning l + 1 := by
  have hc := countRunning_set l i TaskPhase.waiting TaskPhase.running h
  rw [if_neg (by decide), if_pos rfl] at hc
  omega

theorem countRunning_set_release (l : List TaskPhase) (i : Nat)
    (h : l[i]? = some TaskPhase.running) :
    countRunning (l.set i TaskPhase.done) + 1 = countRunning l := by
  have hc := countRunning_set l i TaskPhase.running TaskPhase.done h
  rw [if_pos rfl, if_neg (by decide)] at hc
  omega

theorem sem_step_invariant {s t : SemState} (hstep : SemStep s t) {cap : Nat}
    (h : s.permits + countRunning s.tasks = cap) :
    t.permits + countRunning t.tasks = cap := by
  cases hstep with
  | acquire i st2 hw hp =>
    show (s.permits - 1) + countRunning (s.tasks.set i TaskPhase.running) = cap
    rw [countRunning_set_acquire s.tasks i hw]
    omega
  | release i st2 hrun =>
    show (s.permits + 1) + countRunning (s.tasks.set i TaskPhase.done) = cap
    have hc := countRunning_set_release s.tasks i hrun
    omega

theorem sem_invariant {cap n : Nat} {s : SemState} (h : SemReachable cap n s) :
    s.permits + countRunning s.tasks = cap := by
  induction h with
  | init => simp [initSemState, countRunning_replicate_waiting]
  | step hr hstep ih => exact sem_step_invariant hstep ih

/-- C9: in the semaphore discipline of burst_fetch (acquire the shared
semaphore before calling fetch, release on every exit from the with
block), every state reachable from the start of one get_doc_by_service
call with capacity cap and n queued URLs has at most cap fetch operations
in flight, regardless of n. -/
theorem semaphore_bound {cap n : Nat} {s : SemState} (h : SemReachable cap n s) :
    countRunning s.tasks ≤ cap := by
  have := sem_invariant h
  omega

theorem semaphore_bound_witness :
    countRunning (initSemState 30 100).tasks ≤ 30 :=
  semaphore_bound SemReachable.init
